import Mathlib

/-!
Verification of the live snapshot engine of the netview repository
(src/app.rs, src/ui.rs, src/main.rs) against its specification.

The Rust code is shallowly embedded: pure functions become Lean functions,
the mutable `App` state becomes an explicit record threaded through the
operations, the fallible socket enumeration and DNS resolver become
`Option`-valued parameters, and `Vec::sort_by` (a stable sort) is modelled
by `List.insertionSort`, which is the canonical stable sort and produces
the same output as any stable sort for the lawful comparators used here.
Rust's `u16`/`u32` port and pid fields are modelled as `Nat`; no arithmetic
is performed on them, so overflow is irrelevant.
-/

/-- Ordering produced by Rust's `usize::cmp`/`u16::cmp`/`u32::cmp`
on natural numbers. -/
def natCmp (a b : Nat) : Ordering :=
  if a < b then .lt else if a = b then .eq else .gt

/-- Ordering on characters, as Rust compares string bytes: by code point
(UTF-8 byte order coincides with code-point order). -/
def charCmp (a b : Char) : Ordering :=
  natCmp a.toNat b.toNat

/-- Lexicographic ordering on lists, as Rust's slice `cmp`. -/
def listCmp {α : Type} (c : α → α → Ordering) : List α → List α → Ordering
  | [], [] => .eq
  | [], _ :: _ => .lt
  | _ :: _, [] => .gt
  | a :: as_, b :: bs =>
    match c a b with
    | .eq => listCmp c as_ bs
    | o => o

/-- Ordering on strings: Rust's `str::cmp` (byte-lexicographic, equal to
code-point lexicographic). -/
def strCmp (a b : String) : Ordering :=
  listCmp charCmp a.data b.data

/-- Laws satisfied by every comparator in the program: it is oriented
(swapping arguments swaps the result), its strict part is transitive, and
arguments comparing equal are interchangeable on the left. -/
def CmpLaws {α : Type} (c : α → α → Ordering) : Prop :=
  (∀ a b, c b a = (c a b).swap) ∧
  (∀ a b d, c a b = .lt → c b d = .lt → c a d = .lt) ∧
  (∀ a b, c a b = .eq → ∀ d, c a d = c b d)

/-- Sort columns of the connection table (src/app.rs `SortColumn`). -/
inductive SortColumn : Type
  | Proto
  | LocalIP
  | LocalPort
  | RemoteIP
  | RemotePort
  | State
  | PID
  | Process
deriving DecidableEq, Repr

/-- Sort direction (src/app.rs `SortOrder`). -/
inductive SortOrder : Type
  | Asc
  | Desc
deriving DecidableEq, Repr

/-- Filter on the ip version of a connection (src/app.rs `IpVersionFilter`). -/
inductive IpVersionFilter : Type
  | Ipv4Only
  | Ipv6Only
  | Ipv4AndIpv6
deriving DecidableEq, Repr

/-- Filter on the protocol of a connection (src/app.rs `ProtocolFilter`). -/
inductive ProtocolFilter : Type
  | TcpOnly
  | UdpOnly
  | TcpAndUdp
deriving DecidableEq, Repr

/-- One row of the connection table (src/app.rs `ConnectionEntry`).
Ports and pids are `u16`/`u32` in the source; no arithmetic is performed on
them, so they are modelled as `Nat`.  The opaque monotonic `Instant` of the
source is modelled as a `Nat` tick value. -/
structure ConnectionEntry : Type where
  proto : String
  local_ip : String
  local_port : Nat
  remote_ip : String
  remote_port : Nat
  state : String
  pid : Nat
  process : String
  creation_time : Nat
deriving DecidableEq, Repr

/-- Custom equality of entries (src/app.rs `impl PartialEq for
ConnectionEntry`): `process` and `creation_time` are excluded. -/
def entryEq (a b : ConnectionEntry) : Bool :=
  a.proto == b.proto
    && a.local_ip == b.local_ip
    && a.local_port == b.local_port
    && a.remote_ip == b.remote_ip
    && a.remote_port == b.remote_port
    && a.state == b.state
    && a.pid == b.pid

/-- Comparison pushing empty strings to the end (src/app.rs
`string_compare_with_empty`). -/
def string_compare_with_empty (a b : String) (sort_order : SortOrder) : Ordering :=
  match sort_order with
  | .Asc =>
    match a == "", b == "" with
    | true, true => .eq
    | true, false => .gt
    | false, true => .lt
    | false, false => strCmp a b
  | .Desc =>
    match a == "", b == "" with
    | true, true => .eq
    | true, false => .lt
    | false, true => .gt
    | false, false => strCmp a b

/-- Comparison pushing zero remote ports to the end (src/app.rs
`remote_port_compare`). -/
def remote_port_compare (a b : Nat) (sort_order : SortOrder) : Ordering :=
  match sort_order with
  | .Asc =>
    match a == 0, b == 0 with
    | true, true => .eq
    | true, false => .gt
    | false, true => .lt
    | false, false => natCmp a b
  | .Desc =>
    match a == 0, b == 0 with
    | true, true => .eq
    | true, false => .lt
    | false, true => .gt
    | false, false => natCmp a b

/-- Generic form of the two push-to-end comparators, used only to prove
their laws once. -/
def pushCmp {α : Type} (isE : α → Bool) (c : α → α → Ordering)
    (sort_order : SortOrder) (a b : α) : Ordering :=
  match sort_order with
  | .Asc =>
    match isE a, isE b with
    | true, true => .eq
    | true, false => .gt
    | false, true => .lt
    | false, false => c a b
  | .Desc =>
    match isE a, isE b with
    | true, true => .eq
    | true, false => .lt
    | false, true => .gt
    | false, false => c a b

/-- Per-column ordering of two entries for a given sort order: the value
bound to `ord` in src/app.rs `App::sort_entries` before the direction is
applied. -/
def entryCmpCol (col : SortColumn) (so : SortOrder) (a b : ConnectionEntry) :
    Ordering :=
  match col with
  | .Proto => strCmp a.proto b.proto
  | .LocalIP => strCmp a.local_ip b.local_ip
  | .LocalPort => natCmp a.local_port b.local_port
  | .RemoteIP => string_compare_with_empty a.remote_ip b.remote_ip so
  | .RemotePort => remote_port_compare a.remote_port b.remote_port so
  | .State => string_compare_with_empty a.state b.state so
  | .PID => natCmp a.pid b.pid
  | .Process => string_compare_with_empty a.process b.process so

/-- Full comparator passed to the stable sort in src/app.rs
`App::sort_entries`: the per-column ordering, reversed for `Desc`
(`ord.reverse()` in Rust is `Ordering.swap`). -/
def entryCmp (col : SortColumn) (so : SortOrder) (a b : ConnectionEntry) :
    Ordering :=
  let ord := entryCmpCol col so a b
  match so with
  | .Asc => ord
  | .Desc => ord.swap

/-- The stable sort of src/app.rs `App::sort_entries`
(`Vec::sort_by` is stable; `List.insertionSort` is the canonical stable
sort and agrees with it for the lawful comparators proved above). -/
def sort_entries (col : SortColumn) (so : SortOrder)
    (entries : List ConnectionEntry) : List ConnectionEntry :=
  List.insertionSort (fun a b => entryCmp col so a b ≠ .gt) entries

/-- Entries whose key in the given column is not the empty value that the
push-to-end comparators special-case (for the remaining columns there is
no such value and the condition is trivial). -/
def colKeyNonEmpty (col : SortColumn) (e : ConnectionEntry) : Prop :=
  match col with
  | .RemoteIP => e.remote_ip ≠ ""
  | .RemotePort => e.remote_port ≠ 0
  | .State => e.state ≠ ""
  | .Process => e.process ≠ ""
  | _ => True

/-- Address family of an ip address (`IpAddr::is_ipv4` / `is_ipv6`). -/
inductive IpVersion : Type
  | V4
  | V6
deriving DecidableEq, Repr

/-- Model of `std::net::IpAddr`: its family together with its literal
textual form (what `ip.to_string()` returns). -/
structure IpAddrM : Type where
  version : IpVersion
  literal : String
deriving DecidableEq, Repr

def IpAddrM.is_ipv4 (ip : IpAddrM) : Bool :=
  match ip.version with
  | .V4 => true
  | .V6 => false

def IpAddrM.is_ipv6 (ip : IpAddrM) : Bool :=
  match ip.version with
  | .V4 => false
  | .V6 => true

/-- Model of `netstat2::TcpSocketInfo` (the fields the engine reads; the
textual `state` stands for `format!("{:?}", tcp.state)`). -/
structure TcpSocketInfoM : Type where
  local_addr : IpAddrM
  local_port : Nat
  remote_addr : IpAddrM
  remote_port : Nat
  state : String
deriving DecidableEq, Repr

/-- Model of `netstat2::UdpSocketInfo` (the fields the engine reads). -/
structure UdpSocketInfoM : Type where
  local_addr : IpAddrM
  local_port : Nat
deriving DecidableEq, Repr

/-- Model of `netstat2::ProtocolSocketInfo`. -/
inductive ProtocolSocketInfoM : Type
  | Tcp (tcp : TcpSocketInfoM)
  | Udp (udp : UdpSocketInfoM)
deriving DecidableEq, Repr

/-- Model of `netstat2::SocketInfo`: one raw record of the Raw State
Source. -/
structure SocketInfoM : Type where
  protocol_socket_info : ProtocolSocketInfoM
  associated_pids : List Nat
deriving DecidableEq, Repr

/-- Filter predicate of src/app.rs `App::show_connection`, with the two
filter fields of `App` passed explicitly. -/
def show_connection (protocol_filter : ProtocolFilter)
    (ip_version_filter : IpVersionFilter) (socket_info : SocketInfoM) : Bool :=
  match socket_info.protocol_socket_info with
  | .Tcp tcp =>
    if protocol_filter = ProtocolFilter.UdpOnly then false
    else if tcp.local_addr.is_ipv4 = true ∧ ip_version_filter = IpVersionFilter.Ipv6Only then false
    else if tcp.local_addr.is_ipv6 = true ∧ ip_version_filter = IpVersionFilter.Ipv4Only then false
    else true
  | .Udp udp =>
    if protocol_filter = ProtocolFilter.TcpOnly then false
    else if udp.local_addr.is_ipv4 = true ∧ ip_version_filter = IpVersionFilter.Ipv6Only then false
    else if udp.local_addr.is_ipv6 = true ∧ ip_version_filter = IpVersionFilter.Ipv4Only then false
    else true

/-- Reference predicate written from the claim: the record's protocol
matches the protocol filter, with `TcpAndUdp` always passing. -/
def protoMatches (protocol_filter : ProtocolFilter) (socket_info : SocketInfoM) : Bool :=
  match protocol_filter, socket_info.protocol_socket_info with
  | .TcpAndUdp, _ => true
  | .TcpOnly, .Tcp _ => true
  | .UdpOnly, .Udp _ => true
  | _, _ => false

/-- Local address of a raw record (the address the filter inspects). -/
def localAddrOf (socket_info : SocketInfoM) : IpAddrM :=
  match socket_info.protocol_socket_info with
  | .Tcp tcp => tcp.local_addr
  | .Udp udp => udp.local_addr

/-- Reference predicate written from the claim: the record's address
family matches the ip-version filter, with `Ipv4AndIpv6` always passing. -/
def famMatches (ip_version_filter : IpVersionFilter) (socket_info : SocketInfoM) : Bool :=
  match ip_version_filter, (localAddrOf socket_info).version with
  | .Ipv4AndIpv6, _ => true
  | .Ipv4Only, .V4 => true
  | .Ipv6Only, .V6 => true
  | _, _ => false

/-- Lookup in the DNS cache (`HashMap::get`), the cache being modelled as
an association list whose most recent insertion shadows older ones. -/
def lookup_cache (cache : List (IpAddrM × String)) (ip : IpAddrM) : Option String :=
  match cache with
  | [] => none
  | (k, v) :: rest => if k = ip then some v else lookup_cache rest ip

/-- Model of src/app.rs `App::resolve_dns`.  The external resolver
`dns_lookup::lookup_addr` is a parameter returning `none` on failure.  The
result triple is the returned hostname, the updated cache, and the number
of external lookups performed (0 or 1).  The source inserts the resolved
name twice; both inserts are kept. -/
def resolve_dns (resolver : IpAddrM → Option String)
    (cache : List (IpAddrM × String)) (ip : IpAddrM) :
    String × List (IpAddrM × String) × Nat :=
  match lookup_cache cache ip with
  | some name => (name, cache, 0)
  | none =>
    let hostname := (resolver ip).getD ip.literal
    (hostname, (ip, hostname) :: (ip, hostname) :: cache, 1)

/-- Model of src/app.rs `App::ip_to_string`: resolve through the cache
when resolution is enabled, else return the literal address. -/
def ip_to_string (resolve_address_names : Bool)
    (resolver : IpAddrM → Option String) (cache : List (IpAddrM × String))
    (ip : IpAddrM) : String × List (IpAddrM × String) × Nat :=
  if resolve_address_names then resolve_dns resolver cache ip
  else (ip.literal, cache, 0)

/-- Engine state: the fields of src/app.rs `App` that the verified
operations read or write (`running`, `events` and the ui-only fields are
omitted; they are never touched by these operations). -/
structure AppM : Type where
  entries : List ConnectionEntry
  sort_column : SortColumn
  sort_order : SortOrder
  ip_version_filter : IpVersionFilter
  protocol_filter : ProtocolFilter
  resolve_address_names : Bool
  dns_cache : List (IpAddrM × String)
  selected : Option ConnectionEntry
deriving DecidableEq, Repr

/-- Model of src/app.rs `App::find_previous_entry`: scan `windows(2)` and
return the first window's left element whose right element equals the
target. -/
def find_previous_entry (entries : List ConnectionEntry)
    (entry : ConnectionEntry) : Option ConnectionEntry :=
  match entries with
  | [] => none
  | prev :: rest =>
    match rest with
    | [] => none
    | curr :: _ =>
      if entryEq curr entry then some prev
      else find_previous_entry rest entry

/-- Model of src/app.rs `App::find_next_entry`: scan `windows(2)` and
return the first window's right element whose left element equals the
target. -/
def find_next_entry (entries : List ConnectionEntry)
    (entry : ConnectionEntry) : Option ConnectionEntry :=
  match entries with
  | [] => none
  | curr :: rest =>
    match rest with
    | [] => none
    | next :: _ =>
      if entryEq curr entry then some next
      else find_next_entry rest entry

/-- Model of src/app.rs `App::scroll_up_selection`. -/
def scroll_up_selection (app : AppM) : AppM :=
  if app.entries.isEmpty then app
  else
    match app.selected with
    | some selected =>
      match find_previous_entry app.entries selected with
      | some previous => { app with selected := some previous }
      | none => app
    | none => { app with selected := app.entries.head? }

/-- Model of src/app.rs `App::scroll_down_selection`. -/
def scroll_down_selection (app : AppM) : AppM :=
  if app.entries.isEmpty then app
  else
    match app.selected with
    | some selected =>
      match find_next_entry app.entries selected with
      | some next => { app with selected := some next }
      | none => app
    | none => { app with selected := app.entries.head? }

/-- Model of src/app.rs `App::sort_by_column`: flip the direction when the
column is already active, otherwise set the new column (the direction is
left as it is), then re-sort. -/
def sort_by_column (app : AppM) (col : SortColumn) : AppM :=
  let app' :=
    if app.sort_column = col then
      { app with sort_order :=
          match app.sort_order with
          | .Asc => SortOrder.Desc
          | .Desc => SortOrder.Asc }
    else
      { app with sort_column := col }
  { app' with entries := sort_entries app'.sort_column app'.sort_order app'.entries }

/-- Inner loop of `Vec::dedup`: drop every element equal (under `f`) to
the last kept element. -/
def dedupLoop {α : Type} (f : α → α → Bool) (prev : α) : List α → List α
  | [] => []
  | b :: l => if f prev b then dedupLoop f prev l else b :: dedupLoop f b l

/-- Model of `Vec::dedup` (src/app.rs line 379): remove consecutive
duplicate entries, keeping the first of each run; equality is the custom
`PartialEq` of `ConnectionEntry`. -/
def dedupAdj {α : Type} (f : α → α → Bool) : List α → List α
  | [] => []
  | a :: l => a :: dedupLoop f a l

/-- Model of src/app.rs `App::update_connection_entries`.  The Raw State
Source result (`get_sockets_info`) is passed as `enumResult` (`none`
models `Err`), the process-name lookup as `procName` and the external DNS
resolver as `resolver`.  The capture `Instant::now()` is modelled as tick
value 0.  Entries are rebuilt from scratch, filtered before being pushed,
sorted, and adjacent duplicates removed; the selection is not touched. -/
def update_connection_entries (resolver : IpAddrM → Option String)
    (enumResult : Option (List SocketInfoM)) (procName : Nat → Option String)
    (app : AppM) : AppM :=
  let built : List ConnectionEntry × List (IpAddrM × String) :=
    match enumResult with
    | none => ([], app.dns_cache)
    | some sockets =>
      sockets.foldl
        (fun acc conn =>
          let pid := conn.associated_pids.head?.getD 0
          let proc_name := (procName pid).getD ""
          match conn.protocol_socket_info with
          | .Tcp tcp =>
            if show_connection app.protocol_filter app.ip_version_filter conn then
              let r1 := ip_to_string app.resolve_address_names resolver acc.2 tcp.local_addr
              let r2 := ip_to_string app.resolve_address_names resolver r1.2.1 tcp.remote_addr
              (acc.1 ++ [{ proto := "TCP"
                           local_ip := r1.1
                           local_port := tcp.local_port
                           remote_ip := r2.1
                           remote_port := tcp.remote_port
                           state := tcp.state
                           pid := pid
                           process := proc_name
                           creation_time := 0 }], r2.2.1)
            else acc
          | .Udp udp =>
            if show_connection app.protocol_filter app.ip_version_filter conn then
              let r1 := ip_to_string app.resolve_address_names resolver acc.2 udp.local_addr
              (acc.1 ++ [{ proto := "UDP"
                           local_ip := r1.1
                           local_port := udp.local_port
                           remote_ip := ""
                           remote_port := 0
                           state := ""
                           pid := pid
                           process := proc_name
                           creation_time := 0 }], r1.2.1)
            else acc)
        ([], app.dns_cache)
  { app with
    entries := dedupAdj entryEq
      (sort_entries app.sort_column app.sort_order built.1)
    dns_cache := built.2 }

/-- Model of the scroll reconciliation and row slicing of src/ui.rs
`App::render_connection_table`.  Arguments: number of rows, the derived
index of the selected row, the terminal area height, and the stored scroll
offset.  Returns `none` where the Rust code panics: a `usize` underflow of
`visible_table_height - 1` (debug builds), or a slice `rows[a..b]` with
`a > b`.  Otherwise returns the reconciled scroll offset and the slice
bounds. -/
def render_connection_table (rows : Nat) (selected_index : Option Nat)
    (area_height : Nat) (scroll : Nat) : Option (Nat × Nat × Nat) :=
  let visible_table_height := area_height - 2
  match selected_index with
  | none =>
    let stop := min (scroll + visible_table_height) rows
    if scroll ≤ stop then some (scroll, scroll, stop) else none
  | some index =>
    if visible_table_height = 0 then none
    else
      let scroll' :=
        if scroll > index then index
        else if scroll + (visible_table_height - 1) ≤ index then
          index - (visible_table_height - 1) + 1
        else scroll
      let stop := min (scroll' + visible_table_height) rows
      if scroll' ≤ stop then some (scroll', scroll', stop) else none

/-- Index of the first element satisfying `p` (the claim's notion of "the
first index at which list[index] equals target"). -/
def firstMatchIdx {α : Type} (p : α → Bool) : List α → Option Nat
  | [] => none
  | a :: l => if p a then some 0 else (firstMatchIdx p l).map (fun i => i + 1)

/-- Reference function written from the claim's words for `findPrevious`:
the element at `index-1` for the first index at which the list element
equals the target, `none` when there is no such index or it is 0. -/
def claimFindPrevious (l : List ConnectionEntry) (t : ConnectionEntry) :
    Option ConnectionEntry :=
  match firstMatchIdx (fun e => entryEq e t) l with
  | none => none
  | some 0 => none
  | some (i + 1) => l[i]?

/-- Reference function written from the claim's words for `findNext`: the
element at `index+1` for the first index at which the list element equals
the target, `none` when there is no such index or it is the last index. -/
def claimFindNext (l : List ConnectionEntry) (t : ConnectionEntry) :
    Option ConnectionEntry :=
  match firstMatchIdx (fun e => entryEq e t) l with
  | none => none
  | some i => if i = l.length - 1 then none else l[i + 1]?

/-- Amended reference function for `findPrevious`: the element at `j` for
the first index `j+1 ≥ 1` at which the list element equals the target
(matches at index 0 are never examined by the window scan). -/
def amendedFindPrevious (l : List ConnectionEntry) (t : ConnectionEntry) :
    Option ConnectionEntry :=
  match firstMatchIdx (fun e => entryEq e t) l.tail with
  | none => none
  | some j => l[j]?

/-- Blank entry used as template by the concrete test vectors. -/
def ceBase : ConnectionEntry :=
  { proto := ""
    local_ip := ""
    local_port := 0
    remote_ip := ""
    remote_port := 0
    state := ""
    pid := 0
    process := ""
    creation_time := 0 }

/-- Two entries tied on `local_port` but distinct (different pids). -/
def c1a : ConnectionEntry := { ceBase with local_port := 1, pid := 1 }

def c1b : ConnectionEntry := { ceBase with local_port := 1, pid := 2 }

/-- Two entries with distinct local ports. -/
def c1w1 : ConnectionEntry := { ceBase with local_port := 1 }

def c1w2 : ConnectionEntry := { ceBase with local_port := 2 }

/-- Four entries whose `state` strings are the claim's test vector
`["", "b", "", "a"]`. -/
def c2list : List ConnectionEntry :=
  [{ ceBase with state := "", pid := 1 },
   { ceBase with state := "b", pid := 2 },
   { ceBase with state := "", pid := 3 },
   { ceBase with state := "a", pid := 4 }]

/-- Entries A, B, C of the selection-persistence scenario. -/
def c3A : ConnectionEntry := { ceBase with local_port := 1 }

def c3B : ConnectionEntry := { ceBase with local_port := 2 }

def c3C : ConnectionEntry := { ceBase with local_port := 3 }

/-- State after a refresh removed the selected entry B: the list is
`[A, C]` while the selection still holds B. -/
def c3app : AppM :=
  { entries := [c3A, c3C]
    sort_column := .LocalPort
    sort_order := .Asc
    ip_version_filter := .Ipv4AndIpv6
    protocol_filter := .TcpAndUdp
    resolve_address_names := false
    dns_cache := []
    selected := some c3B }

/-- Entries for the duplicate-at-index-0 scenario of C4. -/
def c4A : ConnectionEntry := { ceBase with local_port := 1 }

def c4X : ConnectionEntry := { ceBase with local_port := 2 }

/-- State sorted descending by local port, used to probe C5. -/
def c5app : AppM :=
  { entries := []
    sort_column := .LocalPort
    sort_order := .Desc
    ip_version_filter := .Ipv4AndIpv6
    protocol_filter := .TcpAndUdp
    resolve_address_names := false
    dns_cache := []
    selected := none }

/-- External resolver that always fails. -/
def failResolver : IpAddrM → Option String := fun _ => none

/-- Concrete ip address for the DNS witness. -/
def ip0 : IpAddrM := { version := .V4, literal := "1.2.3.4" }

theorem ordering_swap_eq_lt {o : Ordering} : o.swap = .lt ↔ o = .gt := by
  cases o <;> simp [Ordering.swap]

theorem ordering_swap_eq_eq {o : Ordering} : o.swap = .eq ↔ o = .eq := by
  cases o <;> simp [Ordering.swap]

theorem ordering_swap_eq_gt {o : Ordering} : o.swap = .gt ↔ o = .lt := by
  cases o <;> simp [Ordering.swap]

theorem ordering_swap_ne_gt {o : Ordering} : o.swap ≠ .gt ↔ o ≠ .lt := by
  cases o <;> simp [Ordering.swap]

theorem CmpLaws.interchange_right {α : Type} {c : α → α → Ordering}
    (h : CmpLaws c) {a b : α} (hab : c a b = .eq) (d : α) : c d a = c d b := by
  rw [h.1 a d, h.1 b d, h.2.2 a b hab d]

theorem CmpLaws.le_trans {α : Type} {c : α → α → Ordering} (h : CmpLaws c)
    {a b d : α} (h1 : c a b ≠ .gt) (h2 : c b d ≠ .gt) : c a d ≠ .gt := by
  cases hab : c a b with
  | gt => exact absurd hab h1
  | eq => rw [h.2.2 a b hab d]; exact h2
  | lt =>
    cases hbd : c b d with
    | gt => exact absurd hbd h2
    | eq => rw [h.interchange_right hbd a] at hab; simp [hab]
    | lt => simp [h.2.1 a b d hab hbd]

theorem CmpLaws.total {α : Type} {c : α → α → Ordering} (h : CmpLaws c)
    (a b : α) : c a b ≠ .gt ∨ c b a ≠ .gt := by
  cases hab : c a b with
  | gt => right; rw [h.1 a b, hab]; simp [Ordering.swap]
  | eq => left; simp [hab]
  | lt => left; simp [hab]

theorem CmpLaws.swap_laws {α : Type} {c : α → α → Ordering} (h : CmpLaws c) :
    CmpLaws (fun a b => (c a b).swap) := by
  obtain ⟨hsw, htr, hcl⟩ := h
  refine ⟨fun a b => ?_, fun a b d h1 h2 => ?_, fun a b he d => ?_⟩
  · show (c b a).swap = ((c a b).swap).swap
    rw [hsw a b]
  · have h1' : (c a b).swap = .lt := h1
    have h2' : (c b d).swap = .lt := h2
    show (c a d).swap = .lt
    rw [ordering_swap_eq_lt] at h1' h2' ⊢
    have hba : c b a = .lt := by rw [hsw a b, h1']; rfl
    have hdb : c d b = .lt := by rw [hsw b d, h2']; rfl
    rw [hsw d a, htr d b a hdb hba]; rfl
  · have he' : (c a b).swap = .eq := he
    rw [ordering_swap_eq_eq] at he'
    show (c a d).swap = (c b d).swap
    rw [hcl a b he' d]

theorem natCmp_eq_lt {a b : Nat} : natCmp a b = .lt ↔ a < b := by
  unfold natCmp
  by_cases h1 : a < b
  · simp [h1]
  · by_cases h2 : a = b <;> simp [h1, h2]

theorem natCmp_eq_eq {a b : Nat} : natCmp a b = .eq ↔ a = b := by
  unfold natCmp
  by_cases h1 : a < b
  · simp [h1]; omega
  · by_cases h2 : a = b <;> simp [h1, h2]

theorem natCmp_eq_gt {a b : Nat} : natCmp a b = .gt ↔ b < a := by
  unfold natCmp
  by_cases h1 : a < b
  · simp [h1]; omega
  · by_cases h2 : a = b
    · simp [h1, h2]
    · simp [h1, h2]; omega

theorem natCmp_laws : CmpLaws natCmp := by
  refine ⟨fun a b => ?_, fun a b d h1 h2 => ?_, fun a b he d => ?_⟩
  · rcases Nat.lt_trichotomy a b with h | h | h
    · rw [natCmp_eq_lt.mpr h, show natCmp b a = .gt from natCmp_eq_gt.mpr h]; rfl
    · subst h; rw [natCmp_eq_eq.mpr rfl]; rfl
    · rw [natCmp_eq_gt.mpr h, show natCmp b a = .lt from natCmp_eq_lt.mpr h]; rfl
  · rw [natCmp_eq_lt] at h1 h2 ⊢; omega
  · rw [natCmp_eq_eq] at he; rw [he]

theorem charCmp_laws : CmpLaws charCmp := by
  obtain ⟨hsw, htr, hcl⟩ := natCmp_laws
  exact ⟨fun a b => hsw a.toNat b.toNat,
    fun a b d h1 h2 => htr a.toNat b.toNat d.toNat h1 h2,
    fun a b he d => hcl a.toNat b.toNat he d.toNat⟩

theorem listCmp_laws {α : Type} {c : α → α → Ordering} (h : CmpLaws c) :
    CmpLaws (listCmp c) := by
  obtain ⟨hsw, htr, hcl⟩ := h
  refine ⟨?_, ?_, ?_⟩
  · intro l₁ l₂
    induction l₁ generalizing l₂ with
    | nil => cases l₂ <;> rfl
    | cons a as ih =>
      cases l₂ with
      | nil => rfl
      | cons b bs =>
        simp only [listCmp]
        rw [hsw a b]
        cases hab : c a b <;> simp [Ordering.swap, ih bs]
  · intro l₁ l₂ l₃ h1 h2
    induction l₁ generalizing l₂ l₃ with
    | nil =>
      cases l₂ with
      | nil => exact absurd h1 (by simp [listCmp])
      | cons b bs => cases l₃ with
        | nil => exact absurd h2 (by simp [listCmp])
        | cons d ds => simp [listCmp]
    | cons a as ih =>
      cases l₂ with
      | nil => exact absurd h1 (by simp [listCmp])
      | cons b bs =>
        cases l₃ with
        | nil => exact absurd h2 (by simp [listCmp])
        | cons d ds =>
          simp only [listCmp] at h1 h2 ⊢
          cases hab : c a b with
          | gt => rw [hab] at h1; exact Ordering.noConfusion h1
          | lt =>
            rw [hab] at h1
            cases hbd : c b d with
            | gt => rw [hbd] at h2; exact Ordering.noConfusion h2
            | lt => rw [htr a b d hab hbd]
            | eq =>
              have heq : c a b = c a d :=
                CmpLaws.interchange_right ⟨hsw, htr, hcl⟩ hbd a
              rw [← heq, hab]
          | eq =>
            rw [hab] at h1
            rw [hcl a b hab d]
            cases hbd : c b d with
            | gt => rw [hbd] at h2; exact Ordering.noConfusion h2
            | lt => rfl
            | eq => rw [hbd] at h2; exact ih bs ds h1 h2
  · intro l₁ l₂ he l₃
    induction l₁ generalizing l₂ l₃ with
    | nil =>
      cases l₂ with
      | nil => rfl
      | cons b bs => exact absurd he (by simp [listCmp])
    | cons a as ih =>
      cases l₂ with
      | nil => exact absurd he (by simp [listCmp])
      | cons b bs =>
        simp only [listCmp] at he
        cases hab : c a b with
        | gt => rw [hab] at he; exact Ordering.noConfusion he
        | lt => rw [hab] at he; exact Ordering.noConfusion he
        | eq =>
          rw [hab] at he
          cases l₃ with
          | nil => rfl
          | cons d ds =>
            simp only [listCmp]
            rw [hcl a b hab d]
            cases hbd : c b d with
            | gt => rfl
            | lt => rfl
            | eq => exact ih bs he ds

theorem strCmp_laws : CmpLaws strCmp := by
  obtain ⟨hsw, htr, hcl⟩ := listCmp_laws charCmp_laws
  exact ⟨fun a b => hsw a.data b.data,
    fun a b d h1 h2 => htr a.data b.data d.data h1 h2,
    fun a b he d => hcl a.data b.data he d.data⟩

theorem string_compare_with_empty_eq_pushCmp (a b : String) (so : SortOrder) :
    string_compare_with_empty a b so = pushCmp (fun s => s == "") strCmp so a b := by
  cases so <;> rfl

theorem remote_port_compare_eq_pushCmp (a b : Nat) (so : SortOrder) :
    remote_port_compare a b so = pushCmp (fun n => n == 0) natCmp so a b := by
  cases so <;> rfl

theorem pushCmp_laws {α : Type} (isE : α → Bool) {c : α → α → Ordering}
    (h : CmpLaws c) (so : SortOrder) : CmpLaws (pushCmp isE c so) := by
  obtain ⟨hsw, htr, hcl⟩ := h
  refine ⟨fun a b => ?_, fun a b d h1 h2 => ?_, fun a b he d => ?_⟩
  · cases so <;>
      simp only [pushCmp] <;>
      cases ha : isE a <;>
      cases hb : isE b <;>
      first
        | rfl
        | exact hsw a b
  · cases so <;>
      simp only [pushCmp] at h1 h2 ⊢ <;>
      cases ha : isE a <;> rw [ha] at h1 <;>
      cases hb : isE b <;> rw [hb] at h1 h2 <;>
      cases hd : isE d <;> rw [hd] at h2 <;>
      first
        | exact Ordering.noConfusion h1
        | exact Ordering.noConfusion h2
        | rfl
        | exact htr a b d h1 h2
  · cases so <;>
      simp only [pushCmp] at he ⊢ <;>
      cases ha : isE a <;> rw [ha] at he <;>
      cases hb : isE b <;> rw [hb] at he <;>
      cases hd : isE d <;>
      first
        | exact Ordering.noConfusion he
        | rfl
        | exact hcl a b he d

theorem entryCmpCol_laws (col : SortColumn) (so : SortOrder) :
    CmpLaws (fun a b => entryCmpCol col so a b) := by
  cases col
  case Proto =>
    obtain ⟨hsw, htr, hcl⟩ := strCmp_laws
    exact ⟨fun a b => hsw a.proto b.proto,
      fun a b d h1 h2 => htr a.proto b.proto d.proto h1 h2,
      fun a b he d => hcl a.proto b.proto he d.proto⟩
  case LocalIP =>
    obtain ⟨hsw, htr, hcl⟩ := strCmp_laws
    exact ⟨fun a b => hsw a.local_ip b.local_ip,
      fun a b d h1 h2 => htr a.local_ip b.local_ip d.local_ip h1 h2,
      fun a b he d => hcl a.local_ip b.local_ip he d.local_ip⟩
  case LocalPort =>
    obtain ⟨hsw, htr, hcl⟩ := natCmp_laws
    exact ⟨fun a b => hsw a.local_port b.local_port,
      fun a b d h1 h2 => htr a.local_port b.local_port d.local_port h1 h2,
      fun a b he d => hcl a.local_port b.local_port he d.local_port⟩
  case RemoteIP =>
    obtain ⟨hsw, htr, hcl⟩ := pushCmp_laws (fun s => s == "") strCmp_laws so
    refine ⟨fun a b => ?_, fun a b d h1 h2 => ?_, fun a b he d => ?_⟩
    · simp only [entryCmpCol, string_compare_with_empty_eq_pushCmp]
      exact hsw a.remote_ip b.remote_ip
    · simp only [entryCmpCol, string_compare_with_empty_eq_pushCmp] at h1 h2 ⊢
      exact htr a.remote_ip b.remote_ip d.remote_ip h1 h2
    · simp only [entryCmpCol, string_compare_with_empty_eq_pushCmp] at he ⊢
      exact hcl a.remote_ip b.remote_ip he d.remote_ip
  case RemotePort =>
    obtain ⟨hsw, htr, hcl⟩ := pushCmp_laws (fun n => n == 0) natCmp_laws so
    refine ⟨fun a b => ?_, fun a b d h1 h2 => ?_, fun a b he d => ?_⟩
    · simp only [entryCmpCol, remote_port_compare_eq_pushCmp]
      exact hsw a.remote_port b.remote_port
    · simp only [entryCmpCol, remote_port_compare_eq_pushCmp] at h1 h2 ⊢
      exact htr a.remote_port b.remote_port d.remote_port h1 h2
    · simp only [entryCmpCol, remote_port_compare_eq_pushCmp] at he ⊢
      exact hcl a.remote_port b.remote_port he d.remote_port
  case State =>
    obtain ⟨hsw, htr, hcl⟩ := pushCmp_laws (fun s => s == "") strCmp_laws so
    refine ⟨fun a b => ?_, fun a b d h1 h2 => ?_, fun a b he d => ?_⟩
    · simp only [entryCmpCol, string_compare_with_empty_eq_pushCmp]
      exact hsw a.state b.state
    · simp only [entryCmpCol, string_compare_with_empty_eq_pushCmp] at h1 h2 ⊢
      exact htr a.state b.state d.state h1 h2
    · simp only [entryCmpCol, string_compare_with_empty_eq_pushCmp] at he ⊢
      exact hcl a.state b.state he d.state
  case PID =>
    obtain ⟨hsw, htr, hcl⟩ := natCmp_laws
    exact ⟨fun a b => hsw a.pid b.pid,
      fun a b d h1 h2 => htr a.pid b.pid d.pid h1 h2,
      fun a b he d => hcl a.pid b.pid he d.pid⟩
  case Process =>
    obtain ⟨hsw, htr, hcl⟩ := pushCmp_laws (fun s => s == "") strCmp_laws so
    refine ⟨fun a b => ?_, fun a b d h1 h2 => ?_, fun a b he d => ?_⟩
    · simp only [entryCmpCol, string_compare_with_empty_eq_pushCmp]
      exact hsw a.process b.process
    · simp only [entryCmpCol, string_compare_with_empty_eq_pushCmp] at h1 h2 ⊢
      exact htr a.process b.process d.process h1 h2
    · simp only [entryCmpCol, string_compare_with_empty_eq_pushCmp] at he ⊢
      exact hcl a.process b.process he d.process

theorem entryCmp_laws (col : SortColumn) (so : SortOrder) :
    CmpLaws (fun a b => entryCmp col so a b) := by
  cases so
  case Asc => exact entryCmpCol_laws col .Asc
  case Desc =>
    have h := CmpLaws.swap_laws (entryCmpCol_laws col .Desc)
    exact h

theorem entryCmp_asc (col : SortColumn) (a b : ConnectionEntry) :
    entryCmp col .Asc a b = entryCmpCol col .Asc a b := rfl

theorem entryCmp_desc (col : SortColumn) (a b : ConnectionEntry) :
    entryCmp col .Desc a b = (entryCmpCol col .Desc a b).swap := rfl

theorem entryCmpCol_swap (col : SortColumn) (so : SortOrder)
    (a b : ConnectionEntry) :
    entryCmpCol col so b a = (entryCmpCol col so a b).swap :=
  (entryCmpCol_laws col so).1 a b

theorem entryCmp_swap (col : SortColumn) (so : SortOrder)
    (a b : ConnectionEntry) :
    entryCmp col so b a = (entryCmp col so a b).swap :=
  (entryCmp_laws col so).1 a b

theorem pushCmp_eq_eq_iff {α : Type} (isE : α → Bool) (c : α → α → Ordering)
    (a b : α) : pushCmp isE c .Desc a b = .eq ↔ pushCmp isE c .Asc a b = .eq := by
  simp only [pushCmp]
  cases ha : isE a <;> cases hb : isE b <;> simp

theorem entryCmpCol_eq_eq_iff (col : SortColumn) (a b : ConnectionEntry) :
    entryCmpCol col .Desc a b = .eq ↔ entryCmpCol col .Asc a b = .eq := by
  cases col
  case Proto => exact Iff.rfl
  case LocalIP => exact Iff.rfl
  case LocalPort => exact Iff.rfl
  case PID => exact Iff.rfl
  case RemoteIP =>
    simp only [entryCmpCol, string_compare_with_empty_eq_pushCmp]
    exact pushCmp_eq_eq_iff _ strCmp _ _
  case RemotePort =>
    simp only [entryCmpCol, remote_port_compare_eq_pushCmp]
    exact pushCmp_eq_eq_iff _ natCmp _ _
  case State =>
    simp only [entryCmpCol, string_compare_with_empty_eq_pushCmp]
    exact pushCmp_eq_eq_iff _ strCmp _ _
  case Process =>
    simp only [entryCmpCol, string_compare_with_empty_eq_pushCmp]
    exact pushCmp_eq_eq_iff _ strCmp _ _

theorem pushCmp_desc_eq_asc {α : Type} (isE : α → Bool) (c : α → α → Ordering)
    {a b : α} (ha : isE a = false) (hb : isE b = false) :
    pushCmp isE c .Desc a b = pushCmp isE c .Asc a b := by
  simp only [pushCmp, ha, hb]

theorem entryCmpCol_desc_eq_asc (col : SortColumn) {a b : ConnectionEntry}
    (ha : colKeyNonEmpty col a) (hb : colKeyNonEmpty col b) :
    entryCmpCol col .Desc a b = entryCmpCol col .Asc a b := by
  cases col
  case Proto => rfl
  case LocalIP => rfl
  case LocalPort => rfl
  case PID => rfl
  case RemoteIP =>
    simp only [entryCmpCol, string_compare_with_empty_eq_pushCmp]
    exact pushCmp_desc_eq_asc _ _
      (beq_eq_false_iff_ne.mpr ha) (beq_eq_false_iff_ne.mpr hb)
  case RemotePort =>
    simp only [entryCmpCol, remote_port_compare_eq_pushCmp]
    exact pushCmp_desc_eq_asc _ _
      (beq_eq_false_iff_ne.mpr ha) (beq_eq_false_iff_ne.mpr hb)
  case State =>
    simp only [entryCmpCol, string_compare_with_empty_eq_pushCmp]
    exact pushCmp_desc_eq_asc _ _
      (beq_eq_false_iff_ne.mpr ha) (beq_eq_false_iff_ne.mpr hb)
  case Process =>
    simp only [entryCmpCol, string_compare_with_empty_eq_pushCmp]
    exact pushCmp_desc_eq_asc _ _
      (beq_eq_false_iff_ne.mpr ha) (beq_eq_false_iff_ne.mpr hb)

/-- C1: the claim `sort(x, Desc) = reverse(sort(x, Asc))` is false on the
code: with two entries tied on the sort column, the stable sort keeps
input order in both directions (the code reverses the comparator, not the
sorted list), so descending is not the reverse of ascending. -/
theorem C1_counterexample :
    ¬ (sort_entries .LocalPort .Desc [c1a, c1b] =
        (sort_entries .LocalPort .Asc [c1a, c1b]).reverse) := by
  decide

/-- C1 (amended): descending sort is the reverse of ascending sort for
every sort column, provided no two entries of the list compare equal in
that column and (for the RemoteIP, RemotePort, State and Process columns)
no entry carries the empty value pushed to the end by the comparator. -/
theorem C1_amended (col : SortColumn) (l : List ConnectionEntry)
    (hkeys : ∀ e ∈ l, colKeyNonEmpty col e)
    (hties : l.Pairwise (fun a b => entryCmpCol col .Asc a b ≠ .eq)) :
    sort_entries col .Desc l = (sort_entries col .Asc l).reverse := by
  have permD : (sort_entries col .Desc l).Perm l := List.perm_insertionSort _ l
  have permA : (sort_entries col .Asc l).Perm l := List.perm_insertionSort _ l
  have sortedD : List.Sorted (fun a b => entryCmp col .Desc a b ≠ .gt)
      (sort_entries col .Desc l) :=
    @List.sorted_insertionSort ConnectionEntry
      (fun a b => entryCmp col .Desc a b ≠ .gt) (fun _ _ => instDecidableNot)
      ⟨fun a b => (entryCmp_laws col .Desc).total a b⟩
      ⟨fun a b d h1 h2 => (entryCmp_laws col .Desc).le_trans h1 h2⟩ l
  have sortedA : List.Sorted (fun a b => entryCmp col .Asc a b ≠ .gt)
      (sort_entries col .Asc l) :=
    @List.sorted_insertionSort ConnectionEntry
      (fun a b => entryCmp col .Asc a b ≠ .gt) (fun _ _ => instDecidableNot)
      ⟨fun a b => (entryCmp_laws col .Asc).total a b⟩
      ⟨fun a b d h1 h2 => (entryCmp_laws col .Asc).le_trans h1 h2⟩ l
  have hsymmNE : ∀ {x y : ConnectionEntry},
      entryCmpCol col .Asc x y ≠ .eq → entryCmpCol col .Asc y x ≠ .eq := by
    intro x y h hc
    rw [entryCmpCol_swap col .Asc x y, ordering_swap_eq_eq] at hc
    exact h hc
  have pwNE_D : (sort_entries col .Desc l).Pairwise
      (fun a b => entryCmpCol col .Asc a b ≠ .eq) :=
    (permD.pairwise_iff hsymmNE).mpr hties
  have pwNE_A : (sort_entries col .Asc l).Pairwise
      (fun a b => entryCmpCol col .Asc a b ≠ .eq) :=
    (permA.pairwise_iff hsymmNE).mpr hties
  have pwD : (sort_entries col .Desc l).Pairwise
      (fun a b => entryCmp col .Desc a b = .lt) := by
    refine List.Pairwise.imp ?_ (List.Pairwise.and sortedD pwNE_D)
    intro a b hab
    obtain ⟨h1, h2⟩ := hab
    have h2d : entryCmpCol col .Desc a b ≠ .eq := fun hc =>
      h2 ((entryCmpCol_eq_eq_iff col a b).mp hc)
    have h1' : (entryCmpCol col .Desc a b).swap ≠ .gt := h1
    rw [ordering_swap_ne_gt] at h1'
    show (entryCmpCol col .Desc a b).swap = .lt
    rw [ordering_swap_eq_lt]
    cases ho : entryCmpCol col .Desc a b
    · exact absurd ho h1'
    · exact absurd ho h2d
    · rfl
  have pwA : (sort_entries col .Asc l).Pairwise
      (fun a b => entryCmp col .Desc b a = .lt) := by
    refine List.Pairwise.imp_of_mem ?_ (List.Pairwise.and sortedA pwNE_A)
    intro a b ha hb hab
    obtain ⟨h1, h2⟩ := hab
    have hlt : entryCmpCol col .Asc a b = .lt := by
      cases ho : entryCmpCol col .Asc a b
      · rfl
      · exact absurd ho h2
      · exact absurd ho h1
    have ka : colKeyNonEmpty col a := hkeys a (permA.mem_iff.mp ha)
    have kb : colKeyNonEmpty col b := hkeys b (permA.mem_iff.mp hb)
    show (entryCmpCol col .Desc b a).swap = .lt
    rw [ordering_swap_eq_lt, entryCmpCol_swap col .Desc a b,
      entryCmpCol_desc_eq_asc col ka kb, hlt]
    rfl
  have pwAr : ((sort_entries col .Asc l).reverse).Pairwise
      (fun a b => entryCmp col .Desc a b = .lt) :=
    List.pairwise_reverse.mpr pwA
  have hperm : (sort_entries col .Desc l).Perm
      ((sort_entries col .Asc l).reverse) :=
    permD.trans (((sort_entries col .Asc l).reverse_perm.trans permA).symm)
  exact @List.eq_of_perm_of_sorted ConnectionEntry
    (fun a b => entryCmp col .Desc a b = .lt)
    ⟨fun a b h1 h2 => by
      have h1' : entryCmp col .Desc a b = .lt := h1
      have h2' : entryCmp col .Desc b a = .lt := h2
      rw [entryCmp_swap col .Desc a b, h1'] at h2'
      exact Ordering.noConfusion h2'⟩
    _ _ hperm pwD pwAr

/-- C1 (witness): the amended theorem at a concrete two-element list with
distinct local ports. -/
theorem C1_witness :
    (∀ e ∈ [c1w1, c1w2], colKeyNonEmpty .LocalPort e) ∧
    List.Pairwise (fun a b => entryCmpCol .LocalPort .Asc a b ≠ .eq)
      [c1w1, c1w2] ∧
    sort_entries .LocalPort .Desc [c1w1, c1w2] =
      (sort_entries .LocalPort .Asc [c1w1, c1w2]).reverse :=
  ⟨fun e _ => trivial, by decide,
    C1_amended .LocalPort [c1w1, c1w2] (fun e _ => trivial) (by decide)⟩

/-- C2: the claim's descending result is false on the code: the
empty-pushing comparator flips its empty handling for `Desc` and the sort
then reverses the whole comparator once more, so the two flips cancel on
the empty handling: empty values stay at the end in both directions, and
sorting the states `["", "b", "", "a"]` descending yields
`["b", "a", "", ""]`, not the claimed `["", "", "b", "a"]`. -/
theorem C2_counterexample :
    ¬ ((sort_entries .State .Desc c2list).map ConnectionEntry.state =
        ["", "", "b", "a"]) := by
  decide

/-- C2 (amended): sorting the states `["", "b", "", "a"]` ascending
yields `["a", "b", "", ""]` and descending yields `["b", "a", "", ""]`;
under the comparator the sort actually applies, an entry with a non-empty
value precedes an entry with the empty value in BOTH directions (empty
values always sort last), two empty values compare equal, and likewise
for zero remote ports. -/
theorem C2_amended :
    (sort_entries .State .Asc c2list).map ConnectionEntry.state =
      ["a", "b", "", ""] ∧
    (sort_entries .State .Desc c2list).map ConnectionEntry.state =
      ["b", "a", "", ""] ∧
    (∀ so a b, a.state ≠ "" → b.state = "" →
      entryCmp .State so a b = .lt ∧ entryCmp .State so b a = .gt) ∧
    (∀ so a b, a.state = "" → b.state = "" → entryCmp .State so a b = .eq) ∧
    (∀ so a b, a.remote_port ≠ 0 → b.remote_port = 0 →
      entryCmp .RemotePort so a b = .lt ∧ entryCmp .RemotePort so b a = .gt) ∧
    (∀ so a b, a.remote_port = 0 → b.remote_port = 0 →
      entryCmp .RemotePort so a b = .eq) := by
  refine ⟨by decide, by decide, ?_, ?_, ?_, ?_⟩
  · intro so a b ha hb
    have ha' : (a.state == "") = false := beq_eq_false_iff_ne.mpr ha
    have hb' : (b.state == "") = true := beq_iff_eq.mpr hb
    cases so <;>
      exact ⟨by simp [entryCmp, entryCmpCol, string_compare_with_empty, Ordering.swap, ha', hb'],
        by simp [entryCmp, entryCmpCol, string_compare_with_empty, Ordering.swap, ha', hb']⟩
  · intro so a b ha hb
    have ha' : (a.state == "") = true := beq_iff_eq.mpr ha
    have hb' : (b.state == "") = true := beq_iff_eq.mpr hb
    cases so <;>
      simp [entryCmp, entryCmpCol, string_compare_with_empty, Ordering.swap, ha', hb']
  · intro so a b ha hb
    have ha' : (a.remote_port == 0) = false := beq_eq_false_iff_ne.mpr ha
    have hb' : (b.remote_port == 0) = true := beq_iff_eq.mpr hb
    cases so <;>
      exact ⟨by simp [entryCmp, entryCmpCol, remote_port_compare, Ordering.swap, ha', hb'],
        by simp [entryCmp, entryCmpCol, remote_port_compare, Ordering.swap, ha', hb']⟩
  · intro so a b ha hb
    have ha' : (a.remote_port == 0) = true := beq_iff_eq.mpr ha
    have hb' : (b.remote_port == 0) = true := beq_iff_eq.mpr hb
    cases so <;>
      simp [entryCmp, entryCmpCol, remote_port_compare, Ordering.swap, ha', hb']

/-- C2 (witness): the amended theorem's comparator facts at a concrete
non-empty/empty pair, in both directions. -/
theorem C2_witness :
    ({ ceBase with state := "x" } : ConnectionEntry).state ≠ "" ∧
    (ceBase : ConnectionEntry).state = "" ∧
    entryCmp .State .Asc { ceBase with state := "x" } ceBase = .lt ∧
    entryCmp .State .Desc { ceBase with state := "x" } ceBase = .lt :=
  ⟨by decide, rfl,
    (C2_amended.2.2.1 .Asc { ceBase with state := "x" } ceBase (by decide) rfl).1,
    (C2_amended.2.2.1 .Desc { ceBase with state := "x" } ceBase (by decide) rfl).1⟩

theorem find_next_entry_none (l : List ConnectionEntry) (t : ConnectionEntry)
    (h : ∀ e ∈ l, entryEq e t = false) : find_next_entry l t = none := by
  induction l with
  | nil => rfl
  | cons curr rest ih =>
    cases rest with
    | nil => rfl
    | cons next rest' =>
      have hc : entryEq curr t = false := h curr (by simp)
      simp only [find_next_entry, hc]
      exact ih (fun e he => h e (by simp [he]))

theorem find_previous_entry_none (l : List ConnectionEntry) (t : ConnectionEntry)
    (h : ∀ e ∈ l, entryEq e t = false) : find_previous_entry l t = none := by
  induction l with
  | nil => rfl
  | cons prev rest ih =>
    cases rest with
    | nil => rfl
    | cons curr rest' =>
      have hc : entryEq curr t = false := h curr (by simp)
      simp only [find_previous_entry, hc]
      exact ih (fun e he => h e (by simp [he]))

/-- C3: the claim is false on the code: with current list `[A, C]` and
the vanished entry B still selected, the successor/predecessor lookup is
performed on the CURRENT list, finds no entry equal to B, and the
selection stays on B — "down" does not select C and "up" does not select
A. -/
theorem C3_counterexample :
    (scroll_down_selection c3app).selected ≠ some c3C ∧
    (scroll_up_selection c3app).selected ≠ some c3A := by
  decide

/-- C3 (amended): when the selected entry no longer occurs in the current
list (under the identity tuple), both navigation intents leave the whole
state — in particular the selection — unchanged: the
predecessor/successor lookup runs on the current list, not the previous
one. -/
theorem C3_amended (app : AppM) (sel : ConnectionEntry)
    (hsel : app.selected = some sel)
    (habs : ∀ e ∈ app.entries, entryEq e sel = false) :
    scroll_down_selection app = app ∧ scroll_up_selection app = app := by
  constructor
  · simp only [scroll_down_selection, hsel,
      find_next_entry_none app.entries sel habs]
    split <;> rfl
  · simp only [scroll_up_selection, hsel,
      find_previous_entry_none app.entries sel habs]
    split <;> rfl

/-- C3 (witness): the amended theorem at the concrete post-refresh state
`[A, C]` with B selected. -/
theorem C3_witness :
    c3app.selected = some c3B ∧
    (∀ e ∈ c3app.entries, entryEq e c3B = false) ∧
    scroll_down_selection c3app = c3app ∧ scroll_up_selection c3app = c3app :=
  ⟨rfl, by decide, C3_amended c3app c3B rfl (by decide)⟩

theorem firstMatchIdx_cons_true {α : Type} (p : α → Bool) (a : α)
    (l : List α) (h : p a = true) : firstMatchIdx p (a :: l) = some 0 := by
  simp [firstMatchIdx, h]

theorem firstMatchIdx_cons_false {α : Type} (p : α → Bool) (a : α)
    (l : List α) (h : p a = false) :
    firstMatchIdx p (a :: l) = (firstMatchIdx p l).map (fun i => i + 1) := by
  simp [firstMatchIdx, h]

theorem find_next_eq_claim (l : List ConnectionEntry) (t : ConnectionEntry) :
    find_next_entry l t = claimFindNext l t := by
  induction l with
  | nil => rfl
  | cons a l ih =>
    cases l with
    | nil =>
      by_cases h : entryEq a t = true
      · simp [find_next_entry, claimFindNext, firstMatchIdx, h]
      · simp [find_next_entry, claimFindNext, firstMatchIdx, h]
    | cons b rest =>
      by_cases h : entryEq a t = true
      · simp [find_next_entry, claimFindNext, firstMatchIdx, h]
      · have ha : entryEq a t = false := by
          cases hb : entryEq a t with
          | false => rfl
          | true => exact absurd hb h
        have hstep : find_next_entry (a :: b :: rest) t =
            find_next_entry (b :: rest) t := by
          simp [find_next_entry, h]
        rw [hstep, ih]
        simp only [claimFindNext]
        rw [firstMatchIdx_cons_false (fun e => entryEq e t) a (b :: rest) ha]
        cases hidx : firstMatchIdx (fun e => entryEq e t) (b :: rest) with
        | none => rfl
        | some j =>
          by_cases hj : j = rest.length
          · simp [hj]
          · simp [hj]

theorem find_previous_eq_amended (l : List ConnectionEntry)
    (t : ConnectionEntry) :
    find_previous_entry l t = amendedFindPrevious l t := by
  induction l with
  | nil => rfl
  | cons a l ih =>
    cases l with
    | nil => rfl
    | cons b rest =>
      by_cases h : entryEq b t = true
      · simp [find_previous_entry, amendedFindPrevious, firstMatchIdx, h]
      · have hb : entryEq b t = false := by
          cases hc : entryEq b t with
          | false => rfl
          | true => exact absurd hc h
        have hstep : find_previous_entry (a :: b :: rest) t =
            find_previous_entry (b :: rest) t := by
          simp [find_previous_entry, h]
        rw [hstep, ih]
        simp only [amendedFindPrevious, List.tail_cons]
        rw [firstMatchIdx_cons_false (fun e => entryEq e t) b rest hb]
        cases hidx : firstMatchIdx (fun e => entryEq e t) rest with
        | none => rfl
        | some j => simp

/-- C4: the claim's `findPrevious` is false on the code: on `[A, X, A]`
with target A the first index at which the list element equals the target
is 0, so the claim demands `None`, but the window scan never examines
index 0 as the "current" element and returns the predecessor of the later
duplicate, `some X`. -/
theorem C4_counterexample :
    find_previous_entry [c4A, c4X, c4A] c4A = some c4X ∧
    claimFindPrevious [c4A, c4X, c4A] c4A = none := by
  decide

/-- C4 (amended): `findPrevious` returns the element before the first
index ≥ 1 at which the list element equals the target (`none` when there
is no such index — an occurrence at index 0 is never examined and does
not mask a later duplicate); `findNext` is exactly as the claim states:
the element after the first index at which the list element equals the
target, `none` when there is none or it is the last index. -/
theorem C4_amended (l : List ConnectionEntry) (t : ConnectionEntry) :
    find_previous_entry l t = amendedFindPrevious l t ∧
    find_next_entry l t = claimFindNext l t :=
  ⟨find_previous_eq_amended l t, find_next_eq_claim l t⟩

/-- C5: the claim "selecting a new column resets the direction to
Ascending" is false on the code: from state (LocalPort, Desc), a sort
intent on Proto sets the column but keeps the direction Desc —
`sort_by_column` never writes `sort_order` in its new-column branch. -/
theorem C5_counterexample :
    (sort_by_column c5app .Proto).sort_column = .Proto ∧
    (sort_by_column c5app .Proto).sort_order = .Desc ∧
    SortOrder.Desc ≠ SortOrder.Asc := by
  decide

/-- C5 (amended): a sort intent on the already-active column flips the
direction and keeps the column; a sort intent on a different column sets
that column and keeps the current direction; in both cases the entry
list is immediately re-sorted under the resulting column and direction. -/
theorem C5_amended (app : AppM) (col : SortColumn) :
    (sort_by_column app col).sort_column = col ∧
    (sort_by_column app col).sort_order =
      (if app.sort_column = col then
        (match app.sort_order with
          | SortOrder.Asc => SortOrder.Desc
          | SortOrder.Desc => SortOrder.Asc)
        else app.sort_order) ∧
    (sort_by_column app col).entries =
      sort_entries (sort_by_column app col).sort_column
        (sort_by_column app col).sort_order app.entries := by
  by_cases h : app.sort_column = col
  · subst h
    simp [sort_by_column]
  · simp [sort_by_column, h]

/-- C6: a record passes `show_connection` exactly when its protocol
matches the protocol filter (`TcpAndUdp` always passes) and its address
family matches the ip-version filter (`Ipv4AndIpv6` always passes); the
predicate is a pure total Boolean function of the record and the two
filter fields. -/
theorem C6_show_connection_iff (pf : ProtocolFilter) (ivf : IpVersionFilter)
    (si : SocketInfoM) :
    show_connection pf ivf si = (protoMatches pf si && famMatches ivf si) := by
  obtain ⟨psi, pids⟩ := si
  cases psi with
  | Tcp tcp =>
    obtain ⟨⟨v, lit⟩, lp, ra, rp, st⟩ := tcp
    cases v <;> cases pf <;> cases ivf <;> rfl
  | Udp udp =>
    obtain ⟨⟨v, lit⟩, lp⟩ := udp
    cases v <;> cases pf <;> cases ivf <;> rfl

/-- C7: display-address behaviour of the DNS cache.  With resolution
disabled the literal address is returned and the cache untouched.  One
`resolve_dns` call performs at most one external lookup, and an
immediately repeated call for the same ip returns the same name from the
cache with zero external lookups.  A cache hit returns the cached value
unchanged.  When the resolver fails on an uncached ip, the literal
address is returned AND stored in the cache.  A cached value survives
every later `resolve_dns` call for any ip, so the fallback is sticky:
all later calls for that ip return it without another external lookup. -/
theorem C7_dns_cache :
    (∀ resolver cache ip,
      ip_to_string false resolver cache ip = (ip.literal, cache, 0)) ∧
    (∀ resolver cache ip, (resolve_dns resolver cache ip).2.2 ≤ 1) ∧
    (∀ resolver cache ip,
      resolve_dns resolver (resolve_dns resolver cache ip).2.1 ip =
        ((resolve_dns resolver cache ip).1,
          (resolve_dns resolver cache ip).2.1, 0)) ∧
    (∀ resolver cache ip v, lookup_cache cache ip = some v →
      resolve_dns resolver cache ip = (v, cache, 0)) ∧
    (∀ resolver cache ip, resolver ip = none →
      lookup_cache cache ip = none →
      (resolve_dns resolver cache ip).1 = ip.literal ∧
      lookup_cache (resolve_dns resolver cache ip).2.1 ip = some ip.literal) ∧
    (∀ resolver cache ip ip2 v, lookup_cache cache ip = some v →
      lookup_cache (resolve_dns resolver cache ip2).2.1 ip = some v) := by
  refine ⟨fun resolver cache ip => rfl, ?_, ?_, ?_, ?_, ?_⟩
  · intro resolver cache ip
    cases h : lookup_cache cache ip <;> simp [resolve_dns, h]
  · intro resolver cache ip
    cases h : lookup_cache cache ip with
    | some v => simp [resolve_dns, h]
    | none => simp [resolve_dns, h, lookup_cache]
  · intro resolver cache ip v hv
    simp [resolve_dns, hv]
  · intro resolver cache ip hres hmiss
    simp [resolve_dns, hres, hmiss, lookup_cache]
  · intro resolver cache ip ip2 v hv
    cases h2 : lookup_cache cache ip2 with
    | some w => simp [resolve_dns, h2, hv]
    | none =>
      by_cases hii : ip2 = ip
      · subst hii
        rw [hv] at h2
        exact Option.noConfusion h2
      · simp [resolve_dns, h2, lookup_cache, hii, hv]

/-- C7 (witness): a failing resolver on an uncached address stores and
returns the literal address. -/
theorem C7_witness :
    failResolver ip0 = none ∧
    lookup_cache [] ip0 = none ∧
    (resolve_dns failResolver [] ip0).1 = "1.2.3.4" ∧
    lookup_cache (resolve_dns failResolver [] ip0).2.1 ip0 = some "1.2.3.4" :=
  ⟨rfl, rfl,
    (C7_dns_cache.2.2.2.2.1 failResolver [] ip0 rfl rfl).1,
    (C7_dns_cache.2.2.2.2.1 failResolver [] ip0 rfl rfl).2⟩

/-- C8: the render pass does NOT clamp a stale scroll offset.  With 2
rows left after the list shrank, no selected index, stored scroll offset
5 and terminal area height 12 (viewport height 10), the row slice is
`rows[5..2]`, which panics in Rust; the model returns `none` (panic)
instead of a clamped window. -/
theorem C8_render_panics : render_connection_table 2 none 12 5 = none := by
  decide

/-- C9: when the Raw State Source enumeration fails (`Err` from
`get_sockets_info`), the refresh produces exactly the empty entry list
for this tick and changes nothing else: the selection, the dns cache and
every other field are kept, and the refresh is a total function — the
failure is never propagated. -/
theorem C9_enumeration_failure (resolver : IpAddrM → Option String)
    (procName : Nat → Option String) (app : AppM) :
    update_connection_entries resolver none procName app =
      { app with entries := [] } := by
  rfl

theorem dedupLoop_chain {α : Type} (f : α → α → Bool) (l : List α) :
    ∀ prev : α,
      List.Chain' (fun a b => f a b = false) (prev :: dedupLoop f prev l) := by
  induction l with
  | nil => intro prev; simp [dedupLoop]
  | cons b l ih =>
    intro prev
    by_cases h : f prev b = true
    · simp only [dedupLoop, h, if_true]
      exact ih prev
    · have hf : f prev b = false := by
        cases hc : f prev b with
        | false => rfl
        | true => exact absurd hc h
      simp only [dedupLoop, hf]
      rw [if_neg (by simp [hf])]
      exact List.chain'_cons.mpr ⟨hf, ih b⟩

theorem dedupAdj_chain {α : Type} (f : α → α → Bool) (l : List α) :
    List.Chain' (fun a b => f a b = false) (dedupAdj f l) := by
  cases l with
  | nil => simp [dedupAdj]
  | cons a l => exact dedupLoop_chain f l a

/-- C10: after every refresh — whatever the enumeration returned, the
filters, the resolver and the prior state — the entry list contains no
two consecutive entries equal under the identity tuple: `dedup` removes
adjacent duplicates after sorting. -/
theorem C10_no_adjacent_duplicates (resolver : IpAddrM → Option String)
    (enumResult : Option (List SocketInfoM)) (procName : Nat → Option String)
    (app : AppM) :
    List.Chain' (fun a b => entryEq a b = false)
      (update_connection_entries resolver enumResult procName app).entries := by
  show List.Chain' (fun a b => entryEq a b = false) (dedupAdj entryEq _)
  exact dedupAdj_chain entryEq _
